import Mathlib

/-!
Verification of the MoleditPy installer (`moleditpy_installer/main.py`).

The Python program is sequential orchestration of OS calls.  We give it a
shallow embedding:

* the Windows registry (the slice under `HKEY_CURRENT_USER`) is a flat
  association list from key paths (lists of name components) to default
  values; the `winreg` primitives used by the program (`CreateKey`,
  `SetValue`, `DeleteKey`, `EnumKey`-at-index-0, `QueryInfoKey`,
  `OpenKey`) become pure functions on that list;
* the ambient OS state (platform name, environment variables, the file
  system, the behaviour of the external `make_shortcut` collaborator) is
  a `World` record threaded through the translated functions;
* Python exceptions become `Except` values where the code inspects them,
  and every `try/except` of the source is translated by handling those
  values, so a translated function that returns a plain value models the
  fact that the corresponding Python function lets no exception escape;
* the unbounded recursion of `delete_registry_tree` gets an explicit
  `fuel` parameter; the call site passes `size-of-registry + 1`, which the
  development proves sufficient.
-/

/-- The result of Python's `platform.system()`, as the program inspects it. -/
inductive OSName where
  | windows
  | linux
  | darwin
  | other
deriving DecidableEq

/-- A registry key path, e.g. `["Software", "Classes", "MoleditPy.File"]`,
relative to `HKEY_CURRENT_USER`. -/
abbrev RegPath := List String

/-- A user-scope registry state: existing keys with their default values. -/
abbrev Registry := List (RegPath × String)

/-- The key paths present in a registry state. -/
def regKeys (r : Registry) : List RegPath :=
  r.map Prod.fst

/-- Whether a key exists (`winreg.OpenKey` succeeds on it). -/
def keyExists (r : Registry) (p : RegPath) : Bool :=
  r.any (fun e => e.1 == p)

/-- The default value of a key, if the key exists. -/
def getValue (r : Registry) (p : RegPath) : Option String :=
  (r.find? (fun e => e.1 == p)).map Prod.snd

/-- `winreg.SetValue(key, "", REG_SZ, v)`: overwrite the default value. -/
def setValue (r : Registry) (p : RegPath) (v : String) : Registry :=
  r.map (fun e => if e.1 == p then (p, v) else e)

/-- Create a single key level if it is absent. -/
def createKey1 (r : Registry) (p : RegPath) : Registry :=
  if keyExists r p then r else r ++ [(p, "")]

/-- `winreg.CreateKey`: creates the key and every missing ancestor. -/
def createKey (r : Registry) (p : RegPath) : Registry :=
  (List.range p.length).foldl (fun acc i => createKey1 acc (p.take (i + 1))) r

/-- If `q` is a direct child of `p` (that is, `q = p ++ [c]`), return the
child name `c`. -/
def childName? (p q : RegPath) : Option String :=
  if p.isPrefixOf q && q.length == p.length + 1 then (q.drop p.length).head?
  else none

/-- The direct-child names of key `p`, in registry enumeration order.
`winreg.QueryInfoKey(k)[0]` is the length of this list and
`winreg.EnumKey(k, 0)` is its head. -/
def directChildren (r : Registry) (p : RegPath) : List String :=
  (regKeys r).filterMap (fun q => childName? p q)

/-- Remove a single key entry (the final `winreg.DeleteKey` effect). -/
def removeKey (r : Registry) (p : RegPath) : Registry :=
  r.filter (fun e => !(e.1 == p))

/-- Errors raised by `winreg.DeleteKey` that the program distinguishes. -/
inductive WinError where
  | fileNotFound
  | otherError
deriving DecidableEq

/-- `winreg.DeleteKey(HKEY_CURRENT_USER, p)`: raises `FileNotFoundError`
if the key is absent, raises (a non-`FileNotFoundError` `OSError`) if the
key still has subkeys, and otherwise deletes the key. -/
def winDeleteKey (r : Registry) (p : RegPath) : Except WinError Registry :=
  if !keyExists r p then .error .fileNotFound
  else if !(directChildren r p).isEmpty then .error .otherError
  else .ok (removeKey r p)

mutual

/-- `delete_registry_tree(key, sub_key)` from `main.py`, on absolute key
paths.  Opens the key (absence, like any exception, yields
`(False, unchanged-part)`), captures `info[0]` (the current direct-child
count), loops that many times deleting "the current first child"
recursively, then deletes the now-empty key itself.  `fuel` bounds the
recursion depth of the embedding; the Python original recurses on the key
tree directly. -/
def delete_registry_tree (fuel : Nat) (r : Registry) (p : RegPath) :
    Bool × Registry :=
  match fuel with
  | 0 => (false, r)
  | fuel' + 1 =>
    if keyExists r p then
      match delete_children fuel' ((directChildren r p).length) r p with
      | (true, r') =>
        if (directChildren r' p).isEmpty then (true, removeKey r' p)
        else (false, r')
      | (false, r') => (false, r')
    else (false, r)
termination_by (fuel, 0)

/-- The `for i in range(0, info[0])` loop of `delete_registry_tree`: each
iteration re-queries `EnumKey(current_key, 0)` (an empty enumeration
raises, modelled by the `none` branch) and recursively deletes that first
child, ignoring the recursive call's boolean result as the source does. -/
def delete_children (fuel n : Nat) (r : Registry) (p : RegPath) :
    Bool × Registry :=
  match n with
  | 0 => (true, r)
  | n' + 1 =>
    match (directChildren r p).head? with
    | none => (false, r)
    | some c =>
      delete_children fuel n' (delete_registry_tree fuel r (p ++ [c])).2 p
termination_by (fuel, n + 1)

end

/-- The fixed ProgID string of the program. -/
def prog_id : String := "MoleditPy.File"

/-- The fixed application display name. -/
def app_name : String := "MoleditPy"

/-- `Software\Classes` under `HKEY_CURRENT_USER`. -/
def classes_path : RegPath := ["Software", "Classes"]

/-- The ProgID key path `Software\Classes\MoleditPy.File`. -/
def prog_id_path : RegPath := classes_path ++ [prog_id]

/-- The two file extensions the program associates. -/
def extensions : List String := [".pmeprj", ".pmeraw"]

/-- The extension key paths deleted by the unregistration code
(`keys_to_remove` in `main.py`). -/
def keys_to_remove : List RegPath :=
  [classes_path ++ [".pmeprj"], classes_path ++ [".pmeraw"]]

/-- Render a key path the way the source logs it. -/
def pathString (p : RegPath) : String :=
  String.intercalate "\\" p

/-- The open command written for the ProgID: `f'"{exe_path}" "%1"'`. -/
def open_command (exe_path : String) : String :=
  "\"" ++ exe_path ++ "\" \"%1\""

/-- `with winreg.CreateKey(...) as key: winreg.SetValue(key, "", REG_SZ, v)`. -/
def setKeyDefault (r : Registry) (p : RegPath) (v : String) : Registry :=
  setValue (createKey r p) p v

/-- `register_file_associations_windows(exe_path, icon_path)`, registry
effect (called under the `platform.system() == "Windows"` gate):
create the ProgID key with the display name, optionally write the
default icon, write the quoted open command, then bind both extensions
to the ProgID.  `iconOnDisk` models `os.path.exists`. -/
def register_file_associations (r : Registry) (exe_path : String)
    (icon_path : Option String) (iconOnDisk : String → Bool) : Registry :=
  let r := setKeyDefault r prog_id_path (app_name ++ " File")
  let r := match icon_path with
    | some ip =>
      if iconOnDisk ip then
        setKeyDefault r (prog_id_path ++ ["DefaultIcon"]) ip
      else r
    | none => r
  let r := setKeyDefault r (prog_id_path ++ ["shell", "open", "command"])
    (open_command exe_path)
  extensions.foldl
    (fun acc ext => setKeyDefault acc (classes_path ++ [ext]) prog_id) r

/-- One iteration of the extension-key loop of
`unregister_file_associations_windows()`: attempt the delete, treating
`FileNotFoundError` as already-satisfied (`pass`) and logging any other
failure. -/
def unregister_ext_step (acc : Registry × List String) (kp : RegPath) :
    Registry × List String :=
  match winDeleteKey acc.1 kp with
  | .ok r' => (r', acc.2 ++ ["  Removed registry key: " ++ pathString kp])
  | .error .fileNotFound => acc
  | .error .otherError =>
    (acc.1, acc.2 ++ ["  Failed to remove " ++ pathString kp])

/-- `unregister_file_associations_windows()`, registry effect and log
(called under the Windows gate): delete the two extension keys, then
recursively delete the ProgID tree.  The recursion fuel `length + 1`
strictly exceeds the number of keys under any subtree, hence never runs
out (proved below). -/
def unregister_file_associations (r : Registry) : Registry × List String :=
  let a1 := keys_to_remove.foldl unregister_ext_step
    (r, ["Unregistering file associations..."])
  let res := delete_registry_tree (a1.1.length + 1) a1.1 prog_id_path
  let log2 :=
    if res.1 then a1.2 ++ ["  Removed registry tree: " ++ pathString prog_id_path]
    else a1.2
  (res.2, log2 ++ ["File associations unregistered."])

/-- The characters of the final path component (after the last `/`). -/
def lastComponentChars (cs : List Char) : List Char :=
  cs.foldl (fun acc c => if c == '/' then [] else acc ++ [c]) []

/-- The index of the last `.` in a character list, if any. -/
def lastDotIdx (cs : List Char) : Option Nat :=
  (List.range cs.length).foldl
    (fun acc j => if cs.getD j ' ' == '.' then some j else acc) none

/-- `pathlib.PurePath.suffix` of the final path component: the substring
from the last dot `i` of the component provided `0 < i < len - 1`. -/
def pathSuffix (s : String) : String :=
  let base := lastComponentChars s.toList
  match lastDotIdx base with
  | some i => if 0 < i && i + 1 < base.length then String.mk (base.drop i) else ""
  | none => ""

/-- `Path.with_suffix(".exe")`: drop the current suffix, append `.exe`. -/
def withSuffixExe (s : String) : String :=
  String.mk (s.toList.take (s.toList.length - (pathSuffix s).length)) ++ ".exe"

/-- The local candidate of `find_executable`: the launcher's directory
joined with `name`, with `.exe` appended on Windows when the candidate
has no suffix. -/
def local_candidate (sys : OSName) (scriptDir name : String) : String :=
  let c := scriptDir ++ "/" ++ name
  if sys == .windows && (pathSuffix c == "") then withSuffixExe c else c

/-- The `.EXE` → `.exe` normalization applied to a found local candidate. -/
def normalize_local (sys : OSName) (c : String) : String :=
  if sys == .windows && (pathSuffix c == ".EXE") then withSuffixExe c else c

/-- The `.EXE` → `.exe` normalization applied to a `shutil.which` result. -/
def normalize_which (sys : OSName) (p : String) : String :=
  if sys == .windows && p.endsWith ".EXE" then p.dropRight 4 ++ ".exe" else p

/-- `find_executable(name)` from `main.py`.  `isExec` models
`candidate.is_file() and os.access(candidate, os.X_OK)`; `whichLookup`
models `shutil.which`.  The local candidate next to the running launcher
is consulted first; the system search path only as a fallback. -/
def find_executable (sys : OSName) (scriptDir : String)
    (isExec : String → Bool) (whichLookup : String → Option String)
    (name : String) : Option String :=
  let candidate := local_candidate sys scriptDir name
  if isExec candidate then some (normalize_local sys candidate)
  else (whichLookup name).map (normalize_which sys)

/-- The ambient OS state the program reads and mutates. -/
structure World where
  system : OSName
  condaDefaultEnv : Option String
  condaExe : Option String
  scriptDir : String
  isExec : String → Bool
  whichLookup : String → Option String
  iconPath : Option String
  iconOnDisk : String → Bool
  makeShortcutFails : Bool
  removeShortcutFails : Bool
  appdata : Option String
  homeDir : String
  fsPaths : List String
  registry : Registry

/-- Python truthiness of an optional environment-variable value. -/
def truthy : Option String → Bool
  | none => false
  | some s => !(s == "")

/-- The `command_name` constant of `install()`. -/
def command_name : String := "moleditpy"

/-- The observable outcome of one `install()` run. -/
structure InstallResult where
  log : List String
  fullCommand : Option String
  shortcutCreated : Bool
  registeredExe : Option String
  registry : Registry

/-- `install()` from `main.py`: resolve the icon, read the conda
variables, locate the executable (aborting with an error message when it
is missing), build the shortcut command line (wrapping it in
`conda run -n <env>` when a non-`base` conda environment with a runner
is detected), attempt shortcut creation (an exception from
`make_shortcut` is caught and logged), then on Windows register the file
associations with the original, unwrapped executable path. -/
def install (w : World) : InstallResult :=
  let icon := w.iconPath
  let log0 :=
    if icon.isNone then
      ["Warning: Could not find a suitable icon file. A default icon will be used."]
    else []
  let conda_env := w.condaDefaultEnv
  let conda_exe := w.condaExe
  let log0 := log0 ++ ["Searching for the executable '" ++ command_name ++ "'..."]
  match find_executable w.system w.scriptDir w.isExec w.whichLookup command_name with
  | none =>
    { log := log0 ++ ["Error: Command '" ++ command_name ++ "' not found."]
      fullCommand := none
      shortcutCreated := false
      registeredExe := none
      registry := w.registry }
  | some original_exe_path =>
    let ts :=
      if truthy conda_env && truthy conda_exe && !(conda_env == some "base") then
        (conda_exe.getD "",
         "run -n " ++ conda_env.getD "" ++ " \"" ++ original_exe_path ++ "\"")
      else
        (original_exe_path, "")
    let target_script := ts.1
    let target_args := ts.2
    let full_command :=
      if !(target_args == "") then
        "\"" ++ target_script ++ "\" " ++ target_args
      else target_script
    -- the try block of install(): platform branch, make_shortcut call
    let afterShortcut : Option (List String × Bool) :=
      match w.system with
      | .windows | .linux =>
        if w.makeShortcutFails then
          some (["Failed to create shortcut: (exception)"], false)
        else
          some (["Successfully created '" ++ app_name ++ "' in the application menu."],
                true)
      | .darwin =>
        if w.makeShortcutFails then
          some (["Failed to create shortcut: (exception)"], false)
        else
          some (["Successfully created '" ++ app_name ++ "' in /Applications."], true)
      | .other => none   -- "not supported": the source returns from install here
    match afterShortcut with
    | none =>
      { log := log0 ++ ["Shortcut creation is not supported on this OS."]
        fullCommand := some full_command
        shortcutCreated := false
        registeredExe := none
        registry := w.registry }
    | some (slog, created) =>
      -- `if system == "Windows" and original_exe_path:` — register with the
      -- original (unwrapped) executable path
      let doReg := w.system == .windows && !(original_exe_path == "")
      { log := log0 ++ slog ++
          (if doReg then ["Registering file associations..."] else [])
        fullCommand := some full_command
        shortcutCreated := created
        registeredExe := if doReg then some original_exe_path else none
        registry :=
          if doReg then
            register_file_associations w.registry original_exe_path
              icon w.iconOnDisk
          else w.registry }

/-- The shortcut artifact path `remove_shortcut()` computes per platform
(`None` on Windows when `APPDATA` is unset, and for unsupported systems). -/
def shortcut_path_for (w : World) : Option String :=
  match w.system with
  | .windows =>
    match w.appdata with
    | some a =>
      some (a ++ "/Microsoft/Windows/Start Menu/Programs/" ++ app_name ++ ".lnk")
    | none => none
  | .linux => some (w.homeDir ++ "/.local/share/applications/" ++ app_name ++ ".desktop")
  | .darwin => some (w.homeDir ++ "/Desktop/" ++ app_name ++ ".app")
  | .other => none

/-- The observable outcome of one `remove_shortcut()` run. -/
structure RemoveResult where
  log : List String
  fsPaths : List String
  registry : Registry

/-- The tail of `remove_shortcut()`: delete the shortcut artifact if it
exists (failures caught and logged), otherwise report "not found". -/
def finish_remove (w : World) (sp : Option String) (reg : Registry)
    (prevLog : List String) : RemoveResult :=
  match sp with
  | some pth =>
    if w.fsPaths.contains pth then
      if w.removeShortcutFails then
        { log := prevLog ++ ["Failed to remove shortcut " ++ pth ++ ": (exception)"]
          fsPaths := w.fsPaths
          registry := reg }
      else
        { log := prevLog ++ ["Removed shortcut: " ++ pth]
          fsPaths := w.fsPaths.filter (fun q => !(q == pth))
          registry := reg }
    else
      { log := prevLog ++ ["Shortcut not found at expected location: " ++ pth]
        fsPaths := w.fsPaths
        registry := reg }
  | none =>
    { log := prevLog ++ ["Shortcut not found at expected location: None"]
      fsPaths := w.fsPaths
      registry := reg }

/-- `remove_shortcut()` from `main.py`: on Windows unregister the file
associations first, then (on every supported platform) delete the
shortcut artifact at its conventional path, treating absence as success. -/
def remove_shortcut (w : World) : RemoveResult :=
  match w.system with
  | .windows =>
    let u := unregister_file_associations w.registry
    finish_remove w (shortcut_path_for w) u.1 u.2
  | .linux => finish_remove w (shortcut_path_for w) w.registry []
  | .darwin => finish_remove w (shortcut_path_for w) w.registry []
  | .other =>
    { log := ["Removal not fully supported/automated for OS: other"]
      fsPaths := w.fsPaths
      registry := w.registry }

/-- `main()` from `main.py`: dispatch on `--remove`, then `return 0`
unconditionally; the process exit status is this return value. -/
def mainRun (removeFlag : Bool) (w : World) : Nat × List String :=
  if removeFlag then
    let r := remove_shortcut w
    (0, r.log)
  else
    let r := install w
    (0, r.log)

/-- Registry well-formedness: every proper nonempty prefix of an existing
key path is itself an existing key (keys form a tree, as the Windows
registry guarantees). -/
def prefixClosedB (r : Registry) : Bool :=
  (regKeys r).all (fun q =>
    (List.range q.length).all (fun m => (m == 0) || keyExists r (q.take m)))

/-- The number of keys at or below `p` (`p` itself included). -/
def cntKeys (r : Registry) (p : RegPath) : Nat :=
  ((regKeys r).filter (fun q => p.isPrefixOf q)).length

/-- A Windows world produced by a fresh install: association subtree
present, with nested `DefaultIcon` and `shell/open/command` children. -/
def installed_registry : Registry :=
  register_file_associations [] "C:/app/moleditpy.exe" (some "C:/icon.ico")
    (fun _ => true)

/-- A Linux world with conda environment `envA`, verifying concrete
command-line generation. -/
def wLin : World :=
  { system := .linux
    condaDefaultEnv := some "envA"
    condaExe := some "/opt/conda/bin/conda"
    scriptDir := "/x"
    isExec := fun s => s == "/x/moleditpy"
    whichLookup := fun _ => none
    iconPath := some "/icon.png"
    iconOnDisk := fun _ => true
    makeShortcutFails := false
    removeShortcutFails := false
    appdata := none
    homeDir := "/home/u"
    fsPaths := []
    registry := [] }

/-- A Windows world with conda environment `envA` whose `make_shortcut`
collaborator raises. -/
def wWin : World :=
  { system := .windows
    condaDefaultEnv := some "envA"
    condaExe := some "C:/conda/Scripts/conda.exe"
    scriptDir := "C:/app"
    isExec := fun s => s == "C:/app/moleditpy.exe"
    whichLookup := fun _ => some "C:/other/moleditpy.exe"
    iconPath := some "C:/icon.ico"
    iconOnDisk := fun _ => true
    makeShortcutFails := true
    removeShortcutFails := false
    appdata := some "C:/Users/u/AppData/Roaming"
    homeDir := "C:/Users/u"
    fsPaths := []
    registry := [] }

/-- A Windows world on which nothing was ever installed. -/
def wEmpty : World :=
  { system := .windows
    condaDefaultEnv := none
    condaExe := none
    scriptDir := "C:/app"
    isExec := fun _ => false
    whichLookup := fun _ => none
    iconPath := none
    iconOnDisk := fun _ => false
    makeShortcutFails := false
    removeShortcutFails := false
    appdata := some "C:/Users/u/AppData/Roaming"
    homeDir := "C:/Users/u"
    fsPaths := []
    registry := [] }

/-- A Linux world where conda is detected by name only: `CONDA_DEFAULT_ENV`
is `envA` but `CONDA_EXE` is unset. -/
def wNoRunner : World :=
  { system := .linux
    condaDefaultEnv := some "envA"
    condaExe := none
    scriptDir := "/x"
    isExec := fun s => s == "/x/moleditpy"
    whichLookup := fun _ => none
    iconPath := some "/icon.png"
    iconOnDisk := fun _ => true
    makeShortcutFails := false
    removeShortcutFails := false
    appdata := none
    homeDir := "/home/u"
    fsPaths := []
    registry := [] }

/-! ### Basic registry lemmas -/

theorem keyExists_iff {r : Registry} {p : RegPath} :
    keyExists r p = true ↔ p ∈ regKeys r := by
  simp [keyExists, regKeys, List.any_eq_true, List.mem_map]

theorem regKeys_filter (r : Registry) (g : RegPath → Bool) :
    regKeys (r.filter (fun e => g e.1)) = (regKeys r).filter g := by
  induction r with
  | nil => rfl
  | cons e r ih =>
    by_cases h : g e.1
    · simp [regKeys, List.filter_cons, h] at ih ⊢
      exact ih
    · simp [regKeys, List.filter_cons, h] at ih ⊢
      exact ih

theorem childName?_eq_some {p q : RegPath} {c : String} :
    childName? p q = some c ↔ q = p ++ [c] := by
  constructor
  · intro h
    unfold childName? at h
    by_cases hc : (p.isPrefixOf q && q.length == p.length + 1) = true
    · rw [if_pos hc] at h
      have hc' := hc
      simp only [Bool.and_eq_true] at hc'
      obtain ⟨hpre, hlen⟩ := hc'
      obtain ⟨t, ht⟩ := List.isPrefixOf_iff_prefix.1 hpre
      have hlen' : q.length = p.length + 1 := by simpa using hlen
      have htlen : t.length = 1 := by
        have := congrArg List.length ht
        simp at this
        omega
      obtain ⟨a, rfl⟩ : ∃ a, t = [a] := by
        cases t with
        | nil => simp at htlen
        | cons a t' =>
          cases t' with
          | nil => exact ⟨a, rfl⟩
          | cons b t'' => simp at htlen
      subst ht
      rw [List.drop_left] at h
      simp at h
      rw [h]
    · rw [if_neg hc] at h
      exact absurd h (by simp)
  · rintro rfl
    unfold childName?
    rw [if_pos, List.drop_left]
    · rfl
    · simp [List.isPrefixOf_iff_prefix, List.prefix_append]

theorem mem_directChildren {r : Registry} {p : RegPath} {c : String} :
    c ∈ directChildren r p ↔ (p ++ [c]) ∈ regKeys r := by
  simp only [directChildren, List.mem_filterMap]
  constructor
  · rintro ⟨q, hq, hcn⟩
    rw [childName?_eq_some.1 hcn] at hq
    exact hq
  · intro h
    exact ⟨p ++ [c], h, childName?_eq_some.2 rfl⟩

theorem prefixClosedB_iff {r : Registry} :
    prefixClosedB r = true ↔
      ∀ q ∈ regKeys r, ∀ m, 0 < m → m < q.length →
        keyExists r (q.take m) = true := by
  simp only [prefixClosedB, List.all_eq_true, List.mem_range, Bool.or_eq_true,
    beq_iff_eq]
  constructor
  · intro h q hq m hm0 hml
    rcases h q hq m hml with h0 | hk
    · omega
    · exact hk
  · intro h q hq m hml
    by_cases hm0 : m = 0
    · exact Or.inl hm0
    · exact Or.inr (h q hq m (Nat.pos_of_ne_zero hm0) hml)

theorem isPrefixOf_self {p : RegPath} : p.isPrefixOf p = true :=
  List.isPrefixOf_iff_prefix.2 (List.prefix_refl p)

theorem isPrefixOf_append_singleton_false {p : RegPath} {c : String} :
    (p ++ [c]).isPrefixOf p = false := by
  by_contra h
  have h' : (p ++ [c]).isPrefixOf p = true := by
    cases hb : (p ++ [c]).isPrefixOf p
    · exact absurd hb h
    · rfl
  have := (List.isPrefixOf_iff_prefix.1 h').length_le
  simp at this

theorem take_append_succ {α : Type} (p : List α) (a : α) (t : List α) :
    (p ++ a :: t).take (p.length + 1) = p ++ [a] := by
  induction p with
  | nil => simp
  | cons x p ih => simpa using ih

theorem cntKeys_le_length (r : Registry) (p : RegPath) :
    cntKeys r p ≤ r.length := by
  calc cntKeys r p ≤ (regKeys r).length := List.length_filter_le _ _
    _ = r.length := by simp [regKeys]

theorem one_le_cntKeys {r : Registry} {p : RegPath}
    (h : keyExists r p = true) : 1 ≤ cntKeys r p := by
  have hp : p ∈ (regKeys r).filter (fun q => p.isPrefixOf q) :=
    List.mem_filter.2 ⟨keyExists_iff.1 h, isPrefixOf_self⟩
  exact List.length_pos.2 (List.ne_nil_of_mem hp)

theorem filter_sublist_filter {α : Type} {f g : α → Bool}
    (hfg : ∀ x, f x = true → g x = true) (l : List α) :
    (l.filter f).Sublist (l.filter g) := by
  have : l.filter f = (l.filter g).filter f := by
    rw [List.filter_filter]
    apply List.filter_congr
    intro x _
    cases hf : f x
    · simp
    · simp [hfg x hf]
  rw [this]
  exact List.filter_sublist _

theorem filter_length_lt {α : Type} {f g : α → Bool}
    (hfg : ∀ x, f x = true → g x = true)
    {l : List α} {a : α} (ha : a ∈ l) (hg : g a = true) (hf : f a = false) :
    (l.filter f).length < (l.filter g).length := by
  induction l with
  | nil => cases ha
  | cons b l ih =>
    rcases List.mem_cons.1 ha with rfl | hmem
    · rw [List.filter_cons, List.filter_cons, hf, hg,
        if_neg Bool.false_ne_true, if_pos rfl]
      exact Nat.lt_succ_of_le (filter_sublist_filter hfg l).length_le
    · have hlt := ih hmem
      rw [List.filter_cons, List.filter_cons]
      cases hfb : f b
      · cases hgb : g b
        · rw [if_neg Bool.false_ne_true, if_neg Bool.false_ne_true]
          exact hlt
        · rw [if_neg Bool.false_ne_true, if_pos rfl]
          exact Nat.lt_succ_of_lt hlt
      · rw [hfg b hfb, if_pos rfl, if_pos rfl]
        exact Nat.succ_lt_succ hlt

theorem cntKeys_child_lt {r : Registry} {p : RegPath} {c : String}
    (hke : keyExists r p = true) :
    cntKeys r (p ++ [c]) < cntKeys r p := by
  apply filter_length_lt
    (f := fun q => (p ++ [c]).isPrefixOf q) (g := fun q => p.isPrefixOf q)
  · intro q hq
    exact List.isPrefixOf_iff_prefix.2
      (((List.prefix_append p [c]).trans (List.isPrefixOf_iff_prefix.1 hq)))
  · exact keyExists_iff.1 hke
  · exact isPrefixOf_self
  · exact isPrefixOf_append_singleton_false

theorem cntKeys_filter_le (r : Registry) (g : RegPath → Bool) (p : RegPath) :
    cntKeys (r.filter (fun e => g e.1)) p ≤ cntKeys r p := by
  unfold cntKeys
  rw [regKeys_filter]
  exact (List.Sublist.filter _ (List.filter_sublist _)).length_le

theorem directChildren_ne_nil {r : Registry} {p q : RegPath}
    (hcl : prefixClosedB r = true) (hq : q ∈ regKeys r)
    (hpre : p <+: q) (hne : q ≠ p) :
    directChildren r p ≠ [] := by
  obtain ⟨t, rfl⟩ := hpre
  cases t with
  | nil => simp at hne
  | cons c t' =>
    have hmem : (p ++ [c]) ∈ regKeys r := by
      cases t' with
      | nil => simpa using hq
      | cons d t'' =>
        have h := (prefixClosedB_iff.1 hcl) _ hq (p.length + 1)
          (by omega)
          (by simp only [List.length_append, List.length_cons]; omega)
        rw [take_append_succ] at h
        exact keyExists_iff.1 h
    intro hnil
    have hc : c ∈ directChildren r p := mem_directChildren.2 hmem
    rw [hnil] at hc
    cases hc

theorem filterMap_filter_comm {l : List RegPath} {h : RegPath → Bool}
    {g : String → Bool} {p : RegPath}
    (hcomp : ∀ q c, childName? p q = some c → h q = g c) :
    (l.filter h).filterMap (fun q => childName? p q) =
      (l.filterMap (fun q => childName? p q)).filter g := by
  induction l with
  | nil => rfl
  | cons q l ih =>
    cases hcn : childName? p q with
    | none =>
      cases hh : h q
      · rw [List.filter_cons, hh, if_neg Bool.false_ne_true,
          List.filterMap_cons, hcn, ih]
      · rw [List.filter_cons, hh, if_pos rfl, List.filterMap_cons, hcn,
          List.filterMap_cons, hcn, ih]
    | some c =>
      have hhg := hcomp q c hcn
      cases hh : h q
      · rw [hh] at hhg
        rw [List.filter_cons, hh, if_neg Bool.false_ne_true,
          List.filterMap_cons, hcn, List.filter_cons, ← hhg,
          if_neg Bool.false_ne_true, ih]
      · rw [hh] at hhg
        rw [List.filter_cons, hh, if_pos rfl, List.filterMap_cons, hcn,
          List.filterMap_cons, hcn, List.filter_cons, ← hhg, if_pos rfl, ih]

theorem nodup_directChildren {r : Registry} {p : RegPath}
    (h : (regKeys r).Nodup) : (directChildren r p).Nodup := by
  apply List.Nodup.filterMap _ h
  intro a a' b hb hb'
  rw [Option.mem_def] at hb hb'
  rw [childName?_eq_some.1 hb, childName?_eq_some.1 hb']

theorem mem_regKeys_filter {r : Registry} {g : RegPath → Bool} {q : RegPath} :
    q ∈ regKeys (r.filter (fun e => g e.1)) ↔ q ∈ regKeys r ∧ g q = true := by
  rw [regKeys_filter, List.mem_filter]

theorem keyExists_filter_keep {r : Registry} {p : RegPath}
    {g : RegPath → Bool} (hke : keyExists r p = true) (hg : g p = true) :
    keyExists (r.filter (fun e => g e.1)) p = true := by
  rw [keyExists_iff, regKeys_filter]
  exact List.mem_filter.2 ⟨keyExists_iff.1 hke, hg⟩

theorem prefixClosed_filter_subtree {r : Registry} {s : RegPath}
    (h : prefixClosedB r = true) :
    prefixClosedB (r.filter (fun e => !(s.isPrefixOf e.1))) = true := by
  rw [prefixClosedB_iff]
  intro q hq m hm0 hml
  obtain ⟨hqmem, hqkeep⟩ :=
    (mem_regKeys_filter (g := fun q => !(s.isPrefixOf q))).1 hq
  have hk := (prefixClosedB_iff.1 h) q hqmem m hm0 hml
  refine keyExists_filter_keep (g := fun q => !(s.isPrefixOf q)) hk ?_
  cases hsp : s.isPrefixOf (q.take m)
  · simp [hsp]
  · exfalso
    have h1 : s <+: q.take m := List.isPrefixOf_iff_prefix.1 hsp
    have h2 : s <+: q := h1.trans (List.take_prefix m q)
    rw [List.isPrefixOf_iff_prefix.2 h2] at hqkeep
    cases hqkeep

theorem prefixClosed_removeKey {r : Registry} {s : RegPath}
    (hcl : prefixClosedB r = true) (hnc : directChildren r s = []) :
    prefixClosedB (removeKey r s) = true := by
  rw [prefixClosedB_iff]
  intro q hq m hm0 hml
  rw [removeKey] at hq ⊢
  obtain ⟨hqmem, hqkeep⟩ :=
    (mem_regKeys_filter (g := fun q => !(q == s))).1 hq
  have hqs : q ≠ s := by
    intro hqs
    rw [hqs] at hqkeep
    simp at hqkeep
  have hk := (prefixClosedB_iff.1 hcl) q hqmem m hm0 hml
  refine keyExists_filter_keep (g := fun q => !(q == s)) hk ?_
  cases hts : (q.take m == s)
  · simp [hts]
  · exfalso
    have hts' : q.take m = s := by simpa using hts
    have hpre : s <+: q := hts' ▸ List.take_prefix m q
    exact directChildren_ne_nil hcl hqmem hpre hqs hnc

theorem isPrefixOf_append_singleton {p : RegPath} {c c' : String} :
    (p ++ [c]).isPrefixOf (p ++ [c']) = (c == c') := by
  cases hb : (c == c')
  · have hne : c ≠ c' := by simpa using hb
    cases hp : (p ++ [c]).isPrefixOf (p ++ [c'])
    · rfl
    · exfalso
      have hpre := List.isPrefixOf_iff_prefix.1 hp
      rw [List.prefix_append_right_inj] at hpre
      obtain ⟨t, ht⟩ := hpre
      simp at ht
      exact hne ht.1
  · have heq : c = c' := by simpa using hb
    subst heq
    rw [isPrefixOf_self]

theorem directChildren_filter_subtree {r : Registry} {p : RegPath}
    {c : String} :
    directChildren (r.filter (fun e => !((p ++ [c]).isPrefixOf e.1))) p =
      (directChildren r p).filter (fun x => !(x == c)) := by
  unfold directChildren
  rw [regKeys_filter r (fun q => !((p ++ [c]).isPrefixOf q))]
  apply filterMap_filter_comm
  intro q c' hcn
  rw [childName?_eq_some.1 hcn, isPrefixOf_append_singleton]
  show (!(c == c')) = !(c' == c)
  cases hb : (c == c')
  · have hne : c ≠ c' := by simpa using hb
    have hb2 : (c' == c) = false := by
      cases hb2 : (c' == c)
      · rfl
      · exact (hne ((beq_iff_eq.1 hb2).symm)).elim
    rw [hb2]
  · have heq : c = c' := by simpa using hb
    subst heq
    rw [beq_self_eq_true]

theorem directChildren_filter_keep_none {r : Registry} {p : RegPath} :
    directChildren
      (r.filter (fun e => (!(p.isPrefixOf e.1) || e.1 == p))) p = [] := by
  unfold directChildren
  rw [regKeys_filter r (fun q => (!(p.isPrefixOf q) || q == p))]
  rw [filterMap_filter_comm (g := fun _ => false)]
  · simp
  · intro q c hcn
    rw [childName?_eq_some.1 hcn]
    have h1 : p.isPrefixOf (p ++ [c]) = true :=
      List.isPrefixOf_iff_prefix.2 (List.prefix_append _ _)
    have h2 : (p ++ [c] == p) = false := by
      simp
    rw [h1, h2]
    rfl

theorem delete_children_zero (fuel : Nat) (r : Registry) (p : RegPath) :
    delete_children fuel 0 r p = (true, r) := by
  rw [delete_children]

theorem delete_children_succ (fuel n : Nat) (r : Registry) (p : RegPath)
    (c : String) (hc : (directChildren r p).head? = some c) :
    delete_children fuel (n + 1) r p =
      delete_children fuel n (delete_registry_tree fuel r (p ++ [c])).2 p := by
  rw [delete_children, hc]

theorem delete_registry_tree_succ (fuel : Nat) (r : Registry) (p : RegPath)
    (h : keyExists r p = true) :
    delete_registry_tree (fuel + 1) r p =
      match delete_children fuel ((directChildren r p).length) r p with
      | (true, r') =>
        if (directChildren r' p).isEmpty then (true, removeKey r' p)
        else (false, r')
      | (false, r') => (false, r') := by
  rw [delete_registry_tree, if_pos h]

/-- The extension-loop of the recursive delete removes exactly the strict
descendants of `p`, provided `p` exists, the registry is a well-formed
tree, and the fuel bounds the subtree size. -/
theorem delete_children_ok (fuel : Nat)
    (IH : ∀ r p, prefixClosedB r = true → (regKeys r).Nodup →
      keyExists r p = true → cntKeys r p ≤ fuel →
      delete_registry_tree fuel r p =
        (true, r.filter (fun e => !(p.isPrefixOf e.1)))) :
    ∀ n r p, prefixClosedB r = true → (regKeys r).Nodup →
      keyExists r p = true → n = (directChildren r p).length →
      cntKeys r p ≤ fuel + 1 →
      delete_children fuel n r p =
        (true, r.filter (fun e => (!(p.isPrefixOf e.1) || e.1 == p))) := by
  intro n
  induction n with
  | zero =>
    intro r p hcl hnd hke hn hcnt
    rw [delete_children_zero]
    have hid : r.filter (fun e => (!(p.isPrefixOf e.1) || e.1 == p)) = r := by
      apply List.filter_eq_self.2
      intro e he
      cases hpq : p.isPrefixOf e.1
      · simp
      · by_cases heq : e.1 = p
        · simp [heq]
        · exfalso
          have hdc : directChildren r p = [] := List.length_eq_zero.1 hn.symm
          have hmem : e.1 ∈ regKeys r := List.mem_map.2 ⟨e, he, rfl⟩
          exact directChildren_ne_nil hcl hmem
            (List.isPrefixOf_iff_prefix.1 hpq) heq hdc
    rw [hid]
  | succ n' ihn =>
    intro r p hcl hnd hke hn hcnt
    obtain ⟨c, rest, hdc⟩ : ∃ c rest, directChildren r p = c :: rest := by
      cases hd : directChildren r p with
      | nil => rw [hd] at hn; exact absurd hn (Nat.succ_ne_zero n')
      | cons c rest => exact ⟨c, rest, rfl⟩
    have hhead : (directChildren r p).head? = some c := by rw [hdc]; rfl
    have hckey : keyExists r (p ++ [c]) = true := by
      rw [keyExists_iff]
      exact mem_directChildren.1 (by rw [hdc]; exact List.mem_cons_self c rest)
    have hclt := cntKeys_child_lt (c := c) hke
    have hIH := IH r (p ++ [c]) hcl hnd hckey (by omega)
    have hcl1 : prefixClosedB
        (r.filter (fun e => !((p ++ [c]).isPrefixOf e.1))) = true :=
      prefixClosed_filter_subtree hcl
    have hnd1 : (regKeys
        (r.filter (fun e => !((p ++ [c]).isPrefixOf e.1)))).Nodup := by
      rw [regKeys_filter r (fun q => !((p ++ [c]).isPrefixOf q))]
      exact hnd.filter _
    have hke1 : keyExists
        (r.filter (fun e => !((p ++ [c]).isPrefixOf e.1))) p = true := by
      refine keyExists_filter_keep
        (g := fun q => !((p ++ [c]).isPrefixOf q)) hke ?_
      show (!((p ++ [c]).isPrefixOf p)) = true
      rw [isPrefixOf_append_singleton_false]
      rfl
    have hcr : c ∉ rest := by
      have hnodup := nodup_directChildren (p := p) hnd
      rw [hdc] at hnodup
      exact (List.nodup_cons.1 hnodup).1
    have hdc1 : directChildren
        (r.filter (fun e => !((p ++ [c]).isPrefixOf e.1))) p = rest := by
      rw [directChildren_filter_subtree, hdc, List.filter_cons]
      have h1 : (!(c == c)) = false := by rw [beq_self_eq_true]; rfl
      rw [h1, if_neg Bool.false_ne_true]
      apply List.filter_eq_self.2
      intro x hx
      have hxc : x ≠ c := by
        intro h
        subst h
        exact hcr hx
      simp [hxc]
    have hcnt1 : cntKeys
        (r.filter (fun e => !((p ++ [c]).isPrefixOf e.1))) p ≤ fuel + 1 :=
      le_trans (cntKeys_filter_le r (fun q => !((p ++ [c]).isPrefixOf q)) p) hcnt
    have hrec := ihn (r.filter (fun e => !((p ++ [c]).isPrefixOf e.1))) p
      hcl1 hnd1 hke1 (by rw [hdc1]; rw [hdc] at hn; simpa using hn) hcnt1
    calc delete_children fuel (n' + 1) r p
        = delete_children fuel n'
            (delete_registry_tree fuel r (p ++ [c])).2 p :=
          delete_children_succ fuel n' r p c hhead
      _ = delete_children fuel n'
            (r.filter (fun e => !((p ++ [c]).isPrefixOf e.1))) p := by
          rw [hIH]
      _ = (true, (r.filter (fun e => !((p ++ [c]).isPrefixOf e.1))).filter
            (fun e => (!(p.isPrefixOf e.1) || e.1 == p))) := hrec
      _ = (true, r.filter (fun e => (!(p.isPrefixOf e.1) || e.1 == p))) := by
          congr 1
          rw [List.filter_filter]
          apply List.filter_congr
          intro e _
          by_cases h1 : p.isPrefixOf e.1 = true
          · by_cases h2 : e.1 = p
            · have h3 : (p ++ [c]).isPrefixOf p = false :=
                isPrefixOf_append_singleton_false
              simp [h1, h2, h3]
            · have h2' : (e.1 == p) = false := by simp [h2]
              simp [h1, h2']
          · have h1' : p.isPrefixOf e.1 = false := by
              cases hb : p.isPrefixOf e.1
              · rfl
              · exact absurd hb h1
            have h3 : (p ++ [c]).isPrefixOf e.1 = false := by
              cases hb : (p ++ [c]).isPrefixOf e.1
              · rfl
              · exfalso
                apply h1
                exact List.isPrefixOf_iff_prefix.2
                  ((List.prefix_append p [c]).trans
                    (List.isPrefixOf_iff_prefix.1 hb))
            simp [h1', h3]

/-- `delete_registry_tree` removes exactly the subtree rooted at `p`
(`p` itself included) whenever `p` exists, the registry is a well-formed
tree, and the fuel bounds the subtree size. -/
theorem delete_registry_tree_ok :
    ∀ (fuel : Nat) (r : Registry) (p : RegPath),
      prefixClosedB r = true → (regKeys r).Nodup →
      keyExists r p = true → cntKeys r p ≤ fuel →
      delete_registry_tree fuel r p =
        (true, r.filter (fun e => !(p.isPrefixOf e.1))) := by
  intro fuel
  induction fuel with
  | zero =>
    intro r p hcl hnd hke hcnt
    have := one_le_cntKeys hke
    omega
  | succ f ihf =>
    intro r p hcl hnd hke hcnt
    have hch := delete_children_ok f ihf ((directChildren r p).length) r p
      hcl hnd hke rfl hcnt
    rw [delete_registry_tree_succ f r p hke, hch]
    show (if (directChildren
          (r.filter (fun e => (!(p.isPrefixOf e.1) || e.1 == p))) p).isEmpty
        then (true, removeKey
          (r.filter (fun e => (!(p.isPrefixOf e.1) || e.1 == p))) p)
        else (false,
          r.filter (fun e => (!(p.isPrefixOf e.1) || e.1 == p)))) =
      (true, r.filter (fun e => !(p.isPrefixOf e.1)))
    rw [directChildren_filter_keep_none, List.isEmpty_nil, if_pos rfl]
    congr 1
    rw [removeKey, List.filter_filter]
    apply List.filter_congr
    intro e _
    by_cases h2 : e.1 = p
    · simp [h2, isPrefixOf_self]
    · have h2' : (e.1 == p) = false := by simp [h2]
      simp [h2']

theorem unregister_ext_step_registry (a : Registry × List String)
    (kp : RegPath) :
    (unregister_ext_step a kp).1 = a.1 ∨
    (keyExists a.1 kp = true ∧ directChildren a.1 kp = [] ∧
      (unregister_ext_step a kp).1 = removeKey a.1 kp) := by
  unfold unregister_ext_step winDeleteKey
  cases hk : keyExists a.1 kp
  · left
    simp
  · cases hc : (directChildren a.1 kp).isEmpty
    · left
      simp [hc]
    · right
      exact ⟨rfl, List.isEmpty_iff.1 hc, by simp [hc]⟩

theorem unregister_ext_step_props (a : Registry × List String) (kp : RegPath)
    (hcl : prefixClosedB a.1 = true) (hnd : (regKeys a.1).Nodup) :
    prefixClosedB (unregister_ext_step a kp).1 = true ∧
    ((regKeys (unregister_ext_step a kp).1).Nodup) ∧
    (∀ q, q ≠ kp → keyExists a.1 q = true →
      keyExists (unregister_ext_step a kp).1 q = true) := by
  rcases unregister_ext_step_registry a kp with h | ⟨hk, hnc, h⟩
  · rw [h]
    exact ⟨hcl, hnd, fun q _ hq => hq⟩
  · rw [h]
    refine ⟨prefixClosed_removeKey hcl hnc, ?_, ?_⟩
    · rw [removeKey, regKeys_filter a.1 (fun q => !(q == kp))]
      exact hnd.filter _
    · intro q hq hke
      rw [removeKey]
      refine keyExists_filter_keep (g := fun q => !(q == kp)) hke ?_
      show (!(q == kp)) = true
      have hb : (q == kp) = false := by simpa using hq
      rw [hb]
      rfl

/-- C1: a single `unregister` call removes the ProgID key together with
all of its descendants, for every well-formed registry containing the
ProgID subtree; the per-level deletion always takes the current first
child, so nested levels are removed depth-first before the parent. -/
theorem unregister_removes_progid_subtree (r : Registry)
    (hcl : prefixClosedB r = true) (hnd : (regKeys r).Nodup)
    (hke : keyExists r prog_id_path = true) :
    ((regKeys (unregister_file_associations r).1).all
      (fun q => !(prog_id_path.isPrefixOf q))) = true := by
  unfold unregister_file_associations
  simp only [keys_to_remove, List.foldl_cons, List.foldl_nil]
  set a0 : Registry × List String :=
    (r, ["Unregistering file associations..."]) with ha0
  obtain ⟨hcl1, hnd1, hkp1⟩ :=
    unregister_ext_step_props a0 (classes_path ++ [".pmeprj"]) hcl hnd
  set a1 := unregister_ext_step a0 (classes_path ++ [".pmeprj"]) with ha1
  obtain ⟨hcl2, hnd2, hkp2⟩ :=
    unregister_ext_step_props a1 (classes_path ++ [".pmeraw"]) hcl1 hnd1
  set a2 := unregister_ext_step a1 (classes_path ++ [".pmeraw"]) with ha2
  have hke1 : keyExists a1.1 prog_id_path = true := hkp1 _ (by decide) hke
  have hke2 : keyExists a2.1 prog_id_path = true := hkp2 _ (by decide) hke1
  have hdel := delete_registry_tree_ok (a2.1.length + 1) a2.1 prog_id_path
    hcl2 hnd2 hke2
    (by have := cntKeys_le_length a2.1 prog_id_path; omega)
  rw [List.all_eq_true]
  intro q hq
  rw [hdel] at hq
  exact ((mem_regKeys_filter
    (g := fun q => !(prog_id_path.isPrefixOf q))).1 hq).2

theorem getValue_cons (e : RegPath × String) (r : Registry) (q : RegPath) :
    getValue (e :: r) q =
      if (e.1 == q) = true then some e.2 else getValue r q := by
  unfold getValue
  rw [List.find?_cons]
  cases hb : (e.1 == q)
  · rw [if_neg Bool.false_ne_true]
  · rw [if_pos rfl]
    rfl

theorem getValue_setValue_ne {r : Registry} {p q : RegPath} {v : String}
    (h : p ≠ q) :
    getValue (setValue r p v) q = getValue r q := by
  induction r with
  | nil => rfl
  | cons e r ih =>
    simp only [setValue, List.map_cons] at ih ⊢
    by_cases he : e.1 = p
    · have hb : (e.1 == p) = true := by simp [he]
      have hhead : (if (e.1 == p) = true then (p, v) else e) = (p, v) :=
        if_pos hb
      rw [hhead, getValue_cons, getValue_cons]
      have h1 : ((p, v).1 == q) = false := by simp [h]
      have h2 : (e.1 == q) = false := by
        rw [he]
        simp [h]
      rw [h1, h2, if_neg Bool.false_ne_true, if_neg Bool.false_ne_true]
      exact ih
    · have hb : (e.1 == p) = false := by simp [he]
      have hhead : (if (e.1 == p) = true then (p, v) else e) = e := by
        rw [hb]
        exact if_neg Bool.false_ne_true
      rw [hhead, getValue_cons, getValue_cons]
      cases hq : (e.1 == q)
      · rw [if_neg Bool.false_ne_true, if_neg Bool.false_ne_true]
        exact ih
      · rw [if_pos rfl, if_pos rfl]

theorem getValue_setValue_same {r : Registry} {p : RegPath} {v : String}
    (h : keyExists r p = true) :
    getValue (setValue r p v) p = some v := by
  induction r with
  | nil => simp [keyExists] at h
  | cons e r ih =>
    simp only [setValue, List.map_cons] at ih ⊢
    by_cases he : e.1 = p
    · have hb : (e.1 == p) = true := by simp [he]
      have hhead : (if (e.1 == p) = true then (p, v) else e) = (p, v) :=
        if_pos hb
      rw [hhead, getValue_cons]
      have h1 : ((p, v).1 == p) = true := by simp
      rw [h1, if_pos rfl]
    · have hb : (e.1 == p) = false := by simp [he]
      have hhead : (if (e.1 == p) = true then (p, v) else e) = e := by
        rw [hb]
        exact if_neg Bool.false_ne_true
      rw [hhead, getValue_cons, hb, if_neg Bool.false_ne_true]
      apply ih
      rw [keyExists, List.any_cons, hb] at h
      simpa [keyExists] using h

theorem keyExists_createKey1_self (r : Registry) (p : RegPath) :
    keyExists (createKey1 r p) p = true := by
  unfold createKey1
  by_cases h : keyExists r p = true
  · rw [if_pos h]
    exact h
  · rw [if_neg h]
    rw [keyExists, List.any_append]
    simp [keyExists]

theorem getValue_createKey1_ne {r : Registry} {s q : RegPath} (h : s ≠ q) :
    getValue (createKey1 r s) q = getValue r q := by
  unfold createKey1
  by_cases hk : keyExists r s = true
  · rw [if_pos hk]
  · rw [if_neg hk]
    unfold getValue
    rw [List.find?_append]
    have : List.find? (fun e => e.1 == q) [(s, "")] = none := by
      simp [h]
    rw [this]
    cases List.find? (fun e => e.1 == q) r
    · rfl
    · rfl

theorem keyExists_createKey (r : Registry) {p : RegPath} (hp : p ≠ []) :
    keyExists (createKey r p) p = true := by
  unfold createKey
  obtain ⟨n, hn⟩ : ∃ n, p.length = n + 1 := by
    cases hp2 : p with
    | nil => exact absurd hp2 hp
    | cons a t => exact ⟨t.length, by simp⟩
  rw [hn, List.range_succ, List.foldl_append, List.foldl_cons, List.foldl_nil]
  rw [← hn, List.take_length]
  exact keyExists_createKey1_self _ p

theorem getValue_createKey_ne {r : Registry} {p q : RegPath}
    (h : ((List.range p.length).all (fun i => !(p.take (i + 1) == q))) = true) :
    getValue (createKey r p) q = getValue r q := by
  unfold createKey
  have haux : ∀ (L : List Nat), (∀ i ∈ L, p.take (i + 1) ≠ q) →
      ∀ (r : Registry),
      getValue (L.foldl (fun acc i => createKey1 acc (p.take (i + 1))) r) q =
        getValue r q := by
    intro L
    induction L with
    | nil =>
      intro _ r
      rfl
    | cons i L ih =>
      intro hL r
      rw [List.foldl_cons]
      rw [ih (fun j hj => hL j (List.mem_cons_of_mem _ hj)) _]
      exact getValue_createKey1_ne (hL i (List.mem_cons_self _ _))
  apply haux
  intro i hi
  have := (List.all_eq_true.1 h) i hi
  simpa using this

theorem getValue_setKeyDefault_same (r : Registry) {p : RegPath} (v : String)
    (hp : p ≠ []) :
    getValue (setKeyDefault r p v) p = some v :=
  getValue_setValue_same (keyExists_createKey r hp)

theorem getValue_setKeyDefault_ne (r : Registry) {p q : RegPath} (v : String)
    (hpq : p ≠ q)
    (hpre : ((List.range p.length).all
      (fun i => !(p.take (i + 1) == q))) = true) :
    getValue (setKeyDefault r p v) q = getValue r q := by
  unfold setKeyDefault
  rw [getValue_setValue_ne hpq, getValue_createKey_ne hpre]

/-- After `register_file_associations_windows`, the default value of the
ProgID's `shell\open\command` key is the quoted open command. -/
theorem getValue_register_open_command (r : Registry) (exe : String)
    (icon : Option String) (onDisk : String → Bool) :
    getValue (register_file_associations r exe icon onDisk)
      (prog_id_path ++ ["shell", "open", "command"]) =
    some (open_command exe) := by
  unfold register_file_associations
  simp only [extensions, List.foldl_cons, List.foldl_nil]
  rw [getValue_setKeyDefault_ne _ _ (by decide) (by decide)]
  rw [getValue_setKeyDefault_ne _ _ (by decide) (by decide)]
  exact getValue_setKeyDefault_same _ _ (by decide)

theorem append_beq_empty_false {s t : String} (ht : t ≠ "") :
    ((s ++ t) == "") = false := by
  cases hb : ((s ++ t) == "")
  · rfl
  · exfalso
    have heq : s ++ t = "" := by simpa using hb
    have hlen := congrArg String.length heq
    rw [String.length_append] at hlen
    have h0 : ("" : String).length = 0 := rfl
    rw [h0] at hlen
    apply ht
    have ht0 : t.length = 0 := by omega
    cases t with
    | mk data =>
      cases data with
      | nil => rfl
      | cons a l => simp [String.length] at ht0

/-- With a located executable, a truthy non-`base` environment name, and
a truthy runner path, the shortcut command line built by `install()` is
the quoted runner followed by `run -n <env> "<exe>"`. -/
theorem install_fullCommand_wrap (w : World) (orig env runner : String)
    (hfind : find_executable w.system w.scriptDir w.isExec w.whichLookup
      command_name = some orig)
    (henv : w.condaDefaultEnv = some env) (hne : env ≠ "") (hnb : env ≠ "base")
    (hexe : w.condaExe = some runner) (hrne : runner ≠ "") :
    (install w).fullCommand =
      some ("\"" ++ runner ++ "\" " ++
        ("run -n " ++ env ++ " \"" ++ orig ++ "\"")) := by
  have h1 : (env == "") = false := by simp [hne]
  have h2 : (runner == "") = false := by simp [hrne]
  have h3 : (some env == some "base") = false := by simp [hnb]
  have h4 : ("run -n " ++ env ++ " \"" ++ orig ++ "\"") ≠ "" := by
    have hb : (("run -n " ++ env ++ " \"" ++ orig ++ "\"") == "") = false :=
      append_beq_empty_false (by decide)
    simpa using hb
  cases hsys : w.system <;>
    cases hmf : w.makeShortcutFails <;>
      (simp only [hsys] at hfind
       simp [install, hfind, henv, hexe, truthy, h1, h2, h3, h4, hsys, hmf])

/-- With a located executable and a falsy wrapping condition, the
shortcut command line built by `install()` is the bare executable path. -/
theorem install_fullCommand_nowrap (w : World) (orig : String)
    (hfind : find_executable w.system w.scriptDir w.isExec w.whichLookup
      command_name = some orig)
    (hcond : (truthy w.condaDefaultEnv && truthy w.condaExe &&
      !(w.condaDefaultEnv == some "base")) = false) :
    (install w).fullCommand = some orig := by
  cases hsys : w.system <;>
    cases hmf : w.makeShortcutFails <;>
      (simp only [hsys] at hfind
       simp [install, hfind, hcond, hsys, hmf])

/-- On Windows with a located (nonempty) executable path, `install()`
always reaches the association-registration step, passing the original
executable path, whether or not `make_shortcut` raised. -/
theorem install_registers_original (w : World) (orig : String)
    (hsys : w.system = .windows)
    (hfind : find_executable w.system w.scriptDir w.isExec w.whichLookup
      command_name = some orig)
    (hne : orig ≠ "") :
    (install w).registeredExe = some orig ∧
    (install w).registry =
      register_file_associations w.registry orig w.iconPath w.iconOnDisk := by
  simp only [hsys] at hfind
  cases hmf : w.makeShortcutFails <;>
    simp [install, hfind, hsys, hmf, hne]

/-- On Windows with a located executable and a failing `make_shortcut`,
the failure is logged and does not stop the run. -/
theorem install_logs_shortcut_failure (w : World) (orig : String)
    (hsys : w.system = .windows)
    (hfind : find_executable w.system w.scriptDir w.isExec w.whichLookup
      command_name = some orig)
    (hmf : w.makeShortcutFails = true) :
    "Failed to create shortcut: (exception)" ∈ (install w).log := by
  simp only [hsys] at hfind
  simp [install, hfind, hsys, hmf]

/-- With no association keys present, `unregister` is an exact no-op on
the registry and logs only the two framing lines. -/
theorem unregister_noop (w : World)
    (h1 : keyExists w.registry (classes_path ++ [".pmeprj"]) = false)
    (h2 : keyExists w.registry (classes_path ++ [".pmeraw"]) = false)
    (h3 : keyExists w.registry prog_id_path = false) :
    unregister_file_associations w.registry =
      (w.registry,
        ["Unregistering file associations...",
         "File associations unregistered."]) := by
  unfold unregister_file_associations
  simp only [keys_to_remove, List.foldl_cons, List.foldl_nil]
  have s1 : unregister_ext_step
      (w.registry, ["Unregistering file associations..."])
      (classes_path ++ [".pmeprj"]) =
      (w.registry, ["Unregistering file associations..."]) := by
    unfold unregister_ext_step winDeleteKey
    simp [h1]
  rw [s1]
  have s2 : unregister_ext_step
      (w.registry, ["Unregistering file associations..."])
      (classes_path ++ [".pmeraw"]) =
      (w.registry, ["Unregistering file associations..."]) := by
    unfold unregister_ext_step winDeleteKey
    simp [h2]
  rw [s2]
  rw [delete_registry_tree]
  simp [h3]

/-! ### Claim theorems -/

/-- C1 witness: on the registry produced by a fresh registration (which
nests `DefaultIcon` and `shell/open/command` under the ProgID, two or
more levels of children), a single unregistration call removes the ProgID
key and every descendant. -/
theorem unregister_removes_progid_subtree_witness :
    prefixClosedB installed_registry = true ∧
    ((regKeys (unregister_file_associations installed_registry).1).all
      (fun q => !(prog_id_path.isPrefixOf q))) = true :=
  ⟨by decide,
   unregister_removes_progid_subtree installed_registry (by decide) (by decide)
     (by decide)⟩

/-- C2 counterexample: in the concrete world `wLin` (environment name
`envA`, runner `/opt/conda/bin/conda`, executable `/x/moleditpy`), the
generated command line is not the unquoted runner path followed by
`run -n envA "/x/moleditpy"`: the code wraps the runner in double
quotes. -/
theorem install_runner_unquoted_counterexample :
    (install wLin).fullCommand ≠
      some ("/opt/conda/bin/conda" ++ " run -n envA \"/x/moleditpy\"") := by
  decide

/-- C2 (amended): when the detected environment name is present,
non-empty and not `base`, and a runner path is present, the generated
command line is the runner path wrapped in double quotes followed by
`run -n <env> "<exe>"`; when the environment name is absent or equals
`base`, the command line is the bare executable path, unquoted. -/
theorem install_command_wrapping_amended (w : World) (orig env runner : String)
    (hfind : find_executable w.system w.scriptDir w.isExec w.whichLookup
      command_name = some orig) :
    (w.condaDefaultEnv = some env → env ≠ "" → env ≠ "base" →
      w.condaExe = some runner → runner ≠ "" →
      (install w).fullCommand =
        some ("\"" ++ runner ++ "\" " ++
          ("run -n " ++ env ++ " \"" ++ orig ++ "\""))) ∧
    ((truthy w.condaDefaultEnv = false ∨ w.condaDefaultEnv = some "base") →
      (install w).fullCommand = some orig) := by
  constructor
  · intro henv hne hnb hexe hrne
    exact install_fullCommand_wrap w orig env runner hfind henv hne hnb hexe hrne
  · intro hcase
    apply install_fullCommand_nowrap w orig hfind
    rcases hcase with hf | hb
    · simp [hf]
    · simp [hb, truthy]

/-- C2 witness: at the concrete world `wLin` the hypotheses hold and the
generated command line is the quoted runner followed by the `run -n`
arguments. -/
theorem install_command_wrapping_amended_witness :
    find_executable wLin.system wLin.scriptDir wLin.isExec wLin.whichLookup
      command_name = some "/x/moleditpy" ∧
    (install wLin).fullCommand =
      some ("\"" ++ "/opt/conda/bin/conda" ++ "\" " ++
        ("run -n " ++ "envA" ++ " \"" ++ "/x/moleditpy" ++ "\"")) :=
  ⟨by decide,
   (install_command_wrapping_amended wLin "/x/moleditpy" "envA"
      "/opt/conda/bin/conda" (by decide)).1 rfl (by decide) (by decide) rfl
      (by decide)⟩

/-- C3: for every executable path (spaces included), every starting
registry, and every icon situation, the open-command value written under
the ProgID's `shell\open\command` key is exactly the quoted executable
path followed by the quoted `%1` placeholder. -/
theorem register_open_command_quoted (r : Registry) (exe_path : String)
    (icon_path : Option String) (iconOnDisk : String → Bool) :
    getValue (register_file_associations r exe_path icon_path iconOnDisk)
      (prog_id_path ++ ["shell", "open", "command"]) =
    some ("\"" ++ exe_path ++ "\" \"%1\"") :=
  getValue_register_open_command r exe_path icon_path iconOnDisk

/-- C4: whenever the local candidate next to the running launcher (with
the platform suffix appended when required and missing) is an existing
executable file, `find_executable` returns it — whatever the system
search path would have answered; the search path result is used exactly
when the local candidate is missing or not executable. -/
theorem find_executable_local_precedence (sys : OSName) (dir name : String)
    (isExec : String → Bool) (whichLookup : String → Option String) :
    (isExec (local_candidate sys dir name) = true →
      find_executable sys dir isExec whichLookup name =
        some (normalize_local sys (local_candidate sys dir name))) ∧
    (isExec (local_candidate sys dir name) = false →
      find_executable sys dir isExec whichLookup name =
        (whichLookup name).map (normalize_which sys)) := by
  constructor
  · intro h
    simp [find_executable, h]
  · intro h
    simp [find_executable, h]

/-- C4 witness: on a Windows world, a local `moleditpy.exe` next to the
launcher wins over a different same-named binary on the search path. -/
theorem find_executable_local_precedence_witness :
    ((fun s => s == "C:/app/moleditpy.exe")
      (local_candidate .windows "C:/app" "moleditpy")) = true ∧
    find_executable .windows "C:/app" (fun s => s == "C:/app/moleditpy.exe")
      (fun _ => some "C:/other/moleditpy.exe") "moleditpy" =
      some (normalize_local .windows
        (local_candidate .windows "C:/app" "moleditpy")) :=
  ⟨by decide,
   (find_executable_local_precedence .windows "C:/app" "moleditpy"
      (fun s => s == "C:/app/moleditpy.exe")
      (fun _ => some "C:/other/moleditpy.exe")).1 (by decide)⟩

/-- C5: on any supported platform, when the shortcut artifact is absent
and none of the association registry keys exist, the remove operation
runs to completion (the embedding is a total function: every `winreg`
error is handled), leaves the file system and registry untouched, and
its log is exactly the framing lines plus a "Shortcut not found" report
— no "Failed"/"Error" outcome. -/
theorem remove_noop_when_nothing_installed (w : World)
    (hsys : w.system = .windows ∨ w.system = .linux ∨ w.system = .darwin)
    (hfs : Option.all (fun s => !(w.fsPaths.contains s))
      (shortcut_path_for w) = true)
    (h1 : keyExists w.registry (classes_path ++ [".pmeprj"]) = false)
    (h2 : keyExists w.registry (classes_path ++ [".pmeraw"]) = false)
    (h3 : keyExists w.registry prog_id_path = false) :
    (remove_shortcut w).fsPaths = w.fsPaths ∧
    (remove_shortcut w).registry = w.registry ∧
    (remove_shortcut w).log =
      (if w.system = .windows then
        ["Unregistering file associations...",
         "File associations unregistered."]
      else []) ++
      ["Shortcut not found at expected location: " ++
        (shortcut_path_for w).getD "None"] := by
  have hunreg := unregister_noop w h1 h2 h3
  rcases hsys with hsys | hsys | hsys
  · cases happ : w.appdata with
    | none =>
      have hsp : shortcut_path_for w = none := by
        simp [shortcut_path_for, hsys, happ]
      simp [remove_shortcut, hsys, hunreg, finish_remove, hsp]
    | some a =>
      have hsp : shortcut_path_for w = some
          (a ++ "/Microsoft/Windows/Start Menu/Programs/" ++ app_name
            ++ ".lnk") := by
        simp [shortcut_path_for, hsys, happ]
      rw [hsp] at hfs
      have hmem : (a ++ "/Microsoft/Windows/Start Menu/Programs/" ++ app_name
          ++ ".lnk") ∉ w.fsPaths := by simpa using hfs
      simp [remove_shortcut, hsys, hunreg, finish_remove, hsp, hmem]
  · have hsp : shortcut_path_for w = some
        (w.homeDir ++ "/.local/share/applications/" ++ app_name
          ++ ".desktop") := by
      simp [shortcut_path_for, hsys]
    rw [hsp] at hfs
    have hmem : (w.homeDir ++ "/.local/share/applications/" ++ app_name
        ++ ".desktop") ∉ w.fsPaths := by simpa using hfs
    simp [remove_shortcut, hsys, finish_remove, hsp, hmem]
  · have hsp : shortcut_path_for w = some
        (w.homeDir ++ "/Desktop/" ++ app_name ++ ".app") := by
      simp [shortcut_path_for, hsys]
    rw [hsp] at hfs
    have hmem : (w.homeDir ++ "/Desktop/" ++ app_name ++ ".app")
        ∉ w.fsPaths := by simpa using hfs
    simp [remove_shortcut, hsys, finish_remove, hsp, hmem]

/-- C5 witness: removing on the fresh Windows world `wEmpty` (nothing
installed) changes nothing and reports "not found". -/
theorem remove_noop_when_nothing_installed_witness :
    keyExists wEmpty.registry prog_id_path = false ∧
    ((remove_shortcut wEmpty).fsPaths = wEmpty.fsPaths ∧
     (remove_shortcut wEmpty).registry = wEmpty.registry ∧
     (remove_shortcut wEmpty).log =
      (if wEmpty.system = .windows then
        ["Unregistering file associations...",
         "File associations unregistered."]
      else []) ++
      ["Shortcut not found at expected location: " ++
        (shortcut_path_for wEmpty).getD "None"]) :=
  ⟨by decide,
   remove_noop_when_nothing_installed wEmpty (Or.inl rfl) (by decide)
     (by decide) (by decide) (by decide)⟩

/-- C6: on Windows, even when environment wrapping was applied to the
shortcut command line, the file-association registration is performed
with the original unwrapped executable path, and the registered
open-command invokes that binary directly. -/
theorem install_registers_unwrapped (w : World) (orig env runner : String)
    (hsys : w.system = .windows)
    (hfind : find_executable w.system w.scriptDir w.isExec w.whichLookup
      command_name = some orig)
    (hne : orig ≠ "")
    (henv : w.condaDefaultEnv = some env) (he1 : env ≠ "") (he2 : env ≠ "base")
    (hexe : w.condaExe = some runner) (hrne : runner ≠ "") :
    (install w).registeredExe = some orig ∧
    getValue (install w).registry
      (prog_id_path ++ ["shell", "open", "command"]) =
      some ("\"" ++ orig ++ "\" \"%1\"") := by
  obtain ⟨hreg, hregistry⟩ := install_registers_original w orig hsys hfind hne
  refine ⟨hreg, ?_⟩
  rw [hregistry]
  exact getValue_register_open_command w.registry orig w.iconPath w.iconOnDisk

/-- C6 witness: at the concrete world `wWin` (conda `envA` wrapping
applies), registration still receives `C:/app/moleditpy.exe` and writes
its quoted open command. -/
theorem install_registers_unwrapped_witness :
    wWin.system = OSName.windows ∧
    ((install wWin).registeredExe = some "C:/app/moleditpy.exe" ∧
     getValue (install wWin).registry
      (prog_id_path ++ ["shell", "open", "command"]) =
      some ("\"" ++ "C:/app/moleditpy.exe" ++ "\" \"%1\"")) :=
  ⟨rfl,
   install_registers_unwrapped wWin "C:/app/moleditpy.exe" "envA"
     "C:/conda/Scripts/conda.exe" rfl (by decide) (by decide) rfl (by decide)
     (by decide) rfl (by decide)⟩

/-- C7: on Windows with a located executable, a failure raised by the
shortcut-creation step is caught and logged, and association
registration is still attempted afterwards with the located path. -/
theorem install_continues_after_shortcut_failure (w : World) (orig : String)
    (hsys : w.system = .windows)
    (hfind : find_executable w.system w.scriptDir w.isExec w.whichLookup
      command_name = some orig)
    (hne : orig ≠ "")
    (hmf : w.makeShortcutFails = true) :
    "Failed to create shortcut: (exception)" ∈ (install w).log ∧
    (install w).registeredExe = some orig :=
  ⟨install_logs_shortcut_failure w orig hsys hfind hmf,
   (install_registers_original w orig hsys hfind hne).1⟩

/-- C7 witness: at `wWin` (whose `make_shortcut` raises), the failure is
logged and registration still happens. -/
theorem install_continues_after_shortcut_failure_witness :
    wWin.makeShortcutFails = true ∧
    ("Failed to create shortcut: (exception)" ∈ (install wWin).log ∧
     (install wWin).registeredExe = some "C:/app/moleditpy.exe") :=
  ⟨rfl,
   install_continues_after_shortcut_failure wWin "C:/app/moleditpy.exe" rfl
     (by decide) (by decide) rfl⟩

/-- C8: when the locator finds no executable, `install()` logs the
user-visible error and stops: no command line is built, no shortcut is
created, no association is registered, and the registry is unchanged. -/
theorem install_aborts_when_executable_missing (w : World)
    (hfind : find_executable w.system w.scriptDir w.isExec w.whichLookup
      command_name = none) :
    ("Error: Command '" ++ command_name ++ "' not found.") ∈ (install w).log ∧
    (install w).fullCommand = none ∧
    (install w).shortcutCreated = false ∧
    (install w).registeredExe = none ∧
    (install w).registry = w.registry := by
  simp [install, hfind]

/-- C8 witness: at the fresh world `wEmpty` (no binary anywhere), the
install aborts with the error message and no side effects. -/
theorem install_aborts_when_executable_missing_witness :
    find_executable wEmpty.system wEmpty.scriptDir wEmpty.isExec
      wEmpty.whichLookup command_name = none ∧
    (("Error: Command '" ++ command_name ++ "' not found.")
        ∈ (install wEmpty).log ∧
     (install wEmpty).fullCommand = none ∧
     (install wEmpty).shortcutCreated = false ∧
     (install wEmpty).registeredExe = none ∧
     (install wEmpty).registry = wEmpty.registry) :=
  ⟨by decide, install_aborts_when_executable_missing wEmpty (by decide)⟩

/-- C9: in both modes of the documented entry point, the process exit
code is 0 — also on the fatal locate-failure path — because the
translated flows are total (every failure is converted to log lines) and
`main()` returns the literal 0. -/
theorem main_exit_code_zero (removeFlag : Bool) (w : World) :
    (mainRun removeFlag w).1 = 0 := by
  cases removeFlag <;> rfl

/-- C10: an environment name alone does not trigger wrapping: with
`CONDA_DEFAULT_ENV` set to a non-`base` name but `CONDA_EXE` unset or
empty, the command line is the bare executable path. -/
theorem install_no_wrapping_without_runner (w : World) (orig env : String)
    (hfind : find_executable w.system w.scriptDir w.isExec w.whichLookup
      command_name = some orig)
    (henv : w.condaDefaultEnv = some env) (hne : env ≠ "") (hnb : env ≠ "base")
    (hexe : w.condaExe = none ∨ w.condaExe = some "") :
    (install w).fullCommand = some orig := by
  apply install_fullCommand_nowrap w orig hfind
  rcases hexe with h | h <;> simp [h, truthy]

/-- C10 witness: at `wNoRunner` (`envA` set, no runner), the command
line is the bare `/x/moleditpy`. -/
theorem install_no_wrapping_without_runner_witness :
    wNoRunner.condaExe = none ∧
    (install wNoRunner).fullCommand = some "/x/moleditpy" :=
  ⟨rfl,
   install_no_wrapping_without_runner wNoRunner "/x/moleditpy" "envA"
     (by decide) rfl (by decide) (by decide) (Or.inl rfl)⟩
